import Mathlib

set_option linter.unusedSectionVars false
set_option linter.unnecessarySimpa false

/-!
Shallow embedding of `src/mod.ts` (denosaurs/event): a strictly typed event
emitter with synchronous callback listeners, per-event pull consumers and
global pull consumers, all verified against the claims of the specification.

Modelling conventions, each justified against the source:

* Event names are an arbitrary type `N` with decidable equality (JS object
  keys), payloads an arbitrary type `P` (the `E[K]` argument tuple of one
  event is modelled as a single value of `P`).
* A JS callback function value is identified by its reference identity; we
  model it as a natural number `Cb`.  Two registrations of the same function
  share the same `Cb`; distinct functions have distinct `Cb`s.
* The private field `listeners` of `EventEmitter` (mod.ts:135) is a JS object
  mapping an event name to an array of `{ once, cb }` records.  We model it
  as a total function `N → List Listener`, identifying an absent key with the
  empty array: the source only ever distinguishes the two through the
  `!this.listeners[eventName]` initialisation (mod.ts:168, 214), through
  `delete` (mod.ts:263) and through `Object.values` (mod.ts:267), and in each
  spot an absent key and an empty array are observationally equal.
* `onWriters` (mod.ts:142) and `globalWriters` (mod.ts:141) hold
  `WritableStreamDefaultWriter`s of `TransformStream`s.  A writer is modelled
  as a `Consumer`: an identity plus the ordered list of values written into
  it so far (its reader observes exactly that list, then — once the writer is
  closed — end of sequence).  Writers stored in the registries are open; the
  readable sides survive `writer.close()` as JS objects, so the state keeps
  the closed ones in the `closedOn` / `closedGlobal` pools, which model those
  surviving reader endpoints and nothing else (no source field corresponds to
  them; `emit` and the registration calls never read them).
* Fallible registration (throwing `TypeError("Listeners limit reached ...")`,
  mod.ts:175, 190, 221, 319) is modelled with `Except`.  In every branch the
  throw happens before any mutation other than initialising an absent key to
  an empty array, which is the identity in this model, so returning the error
  without a state is faithful.
* Listener callbacks are arbitrary JS code.  We defunctionalise them: an
  environment `Env` assigns to each callback identity and received payload a
  list of effects on this same emitter (registering, unregistering, creating
  a consumer, or reentrantly calling `emit`).  Callbacks whose registrations
  would throw are modelled as catching the error (state unchanged).  A fuel
  parameter bounds the depth of reentrant `emit` calls; every theorem below
  either supplies enough fuel for its scenario or restricts the environment.
* `emit` returns, besides the new state, the trace of observable delivery
  actions of the call: listener invocations and consumer writes, in order.
  `await writer.write(args)` enqueues `args` and completes once the chunk is
  accepted; the model appends to the consumer's list and moves on, which is
  the behaviour of a consumer whose reader keeps pulling (the specification's
  sequential-caller regime).
-/

/-- The reference identity of one JS callback function value. -/
abbrev Cb := Nat

/-- One entry of `this.listeners[eventName]` (mod.ts:135-140): a `once` flag
and the callback. -/
structure Listener where
  once : Bool
  cb : Cb
deriving Repr, DecidableEq

/-- One pull-consumer endpoint: the writer half of the `TransformStream`
created at mod.ts:193 or mod.ts:322, identified by `id`, together with the
sequence of values written into it so far (what its reader observes). -/
structure Consumer (α : Type) where
  id : Nat
  buf : List α
deriving Repr, DecidableEq

/-- The only error kind of the source: the `TypeError("Listeners limit
reached: limit is " + this.limit)` thrown at mod.ts:175, 190, 221, 319. -/
inductive EmitterError where
  | limitExceeded (limit : Nat)
deriving Repr, DecidableEq

/-- The private state of one `EventEmitter` instance (mod.ts:134-152), plus
the ghost pools `closedOn` / `closedGlobal` holding the reader endpoints of
consumers that `off` has closed (those readers are live JS objects that
outlive their removal from the registries; the source state proper is the
first five fields). -/
structure EventEmitter (N P : Type) where
  listeners : N → List Listener
  onWriters : N → List (Consumer P)
  globalWriters : List (Consumer (N × P))
  limit : Nat
  nextId : Nat
  closedOn : N → List (Consumer P)
  closedGlobal : List (Consumer (N × P))

variable {N P : Type} [DecidableEq N]

/-- The constructor (mod.ts:150-152): empty registries,
`limit = maxListenersPerEvent ?? 10`. -/
def mkEmitter (N P : Type) (maxListenersPerEvent : Nat := 10) :
    EventEmitter N P :=
  { listeners := fun _ => []
    onWriters := fun _ => []
    globalWriters := []
    limit := maxListenersPerEvent
    nextId := 0
    closedOn := fun _ => []
    closedGlobal := [] }

namespace EventEmitter

/-- The two-argument overload `on(eventName, listener)` (mod.ts:167-181):
throws if the limit is nonzero and already reached, otherwise pushes
`{ once: false, cb: listener }` onto `listeners[eventName]`.  (Named `onCb`
because `on` is a reserved token in Lean.) -/
def onCb (s : EventEmitter N P) (eventName : N) (listener : Cb) :
    Except EmitterError (EventEmitter N P) :=
  if s.limit ≠ 0 ∧ (s.listeners eventName).length ≥ s.limit then
    .error (.limitExceeded s.limit)
  else
    .ok { s with
      listeners := fun m =>
        if m = eventName then s.listeners eventName ++ [⟨false, listener⟩]
        else s.listeners m }

/-- The one-argument overload `on(eventName)` (mod.ts:182-196): throws if the
per-event consumer limit is reached, otherwise creates a fresh
`TransformStream`, pushes its writer onto `onWriters[eventName]` and returns
the async iterator over the readable side (here: the fresh consumer's id). -/
def onStream (s : EventEmitter N P) (eventName : N) :
    Except EmitterError (EventEmitter N P × Nat) :=
  if s.limit ≠ 0 ∧ (s.onWriters eventName).length ≥ s.limit then
    .error (.limitExceeded s.limit)
  else
    .ok ({ s with
      onWriters := fun m =>
        if m = eventName then s.onWriters eventName ++ [⟨s.nextId, []⟩]
        else s.onWriters m
      nextId := s.nextId + 1 }, s.nextId)

/-- The two-argument overload `once(eventName, listener)` (mod.ts:210-228):
the limit check of mod.ts:217-222, then push `{ once: true, cb: listener }`. -/
def once (s : EventEmitter N P) (eventName : N) (listener : Cb) :
    Except EmitterError (EventEmitter N P) :=
  if s.limit ≠ 0 ∧ (s.listeners eventName).length ≥ s.limit then
    .error (.limitExceeded s.limit)
  else
    .ok { s with
      listeners := fun m =>
        if m = eventName then s.listeners eventName ++ [⟨true, listener⟩]
        else s.listeners m }

/-- The one-argument overload `once(eventName)` (mod.ts:229-236): after the
same limit check, returns a promise and pushes a `once` entry whose callback
is the freshly created resolver function `(...args) => res(args)`
(mod.ts:233).  The resolver is a fresh function object, modelled by the fresh
identity `s.nextId`, which is returned so the caller can observe the promise:
the promise resolves with the first payload the resolver is invoked with. -/
def oncePromise (s : EventEmitter N P) (eventName : N) :
    Except EmitterError (EventEmitter N P × Cb) :=
  if s.limit ≠ 0 ∧ (s.listeners eventName).length ≥ s.limit then
    .error (.limitExceeded s.limit)
  else
    .ok ({ s with
      listeners := fun m =>
        if m = eventName then s.listeners eventName ++ [⟨true, s.nextId⟩]
        else s.listeners m
      nextId := s.nextId + 1 }, s.nextId)

/-- The branch of `off(eventName, listener)` with both arguments present
(mod.ts:251-254): replace `listeners[eventName]` by its entries whose
callback is not reference-identical to `listener`.  Writers are untouched. -/
def offCb (s : EventEmitter N P) (eventName : N) (listener : Cb) :
    EventEmitter N P :=
  { s with
    listeners := fun m =>
      if m = eventName then
        (s.listeners eventName).filter (fun l => l.cb != listener)
      else s.listeners m }

/-- The branch of `off(eventName)` without a listener (mod.ts:255-264): await
`close()` on every writer of `onWriters[eventName]` (their readers observe the
values written so far, then end of sequence — they move to the `closedOn`
pool), delete the `onWriters` entry, then delete the `listeners` entry. -/
def offName (s : EventEmitter N P) (eventName : N) : EventEmitter N P :=
  { s with
    onWriters := fun m => if m = eventName then [] else s.onWriters m
    closedOn := fun m =>
      if m = eventName then s.closedOn eventName ++ s.onWriters eventName
      else s.closedOn m
    listeners := fun m => if m = eventName then [] else s.listeners m }

/-- The branch of `off()` with no arguments (mod.ts:265-283): close every
writer of every event (mod.ts:266-275), reset `onWriters`, close every global
writer (mod.ts:277-281), reset `globalWriters`, reset `listeners`. -/
def offAll (s : EventEmitter N P) : EventEmitter N P :=
  { s with
    onWriters := fun _ => []
    closedOn := fun m => s.closedOn m ++ s.onWriters m
    globalWriters := []
    closedGlobal := s.closedGlobal ++ s.globalWriters
    listeners := fun _ => [] }

/-- The `[Symbol.asyncIterator]()` method (mod.ts:315-328): throws if the
global-consumer limit is reached, otherwise pushes a fresh writer onto
`globalWriters` and returns the iterator over `{ name, value }` entries
(here: the fresh consumer's id). -/
def asyncIterator (s : EventEmitter N P) :
    Except EmitterError (EventEmitter N P × Nat) :=
  if s.limit ≠ 0 ∧ s.globalWriters.length ≥ s.limit then
    .error (.limitExceeded s.limit)
  else
    .ok ({ s with
      globalWriters := s.globalWriters ++ [⟨s.nextId, []⟩]
      nextId := s.nextId + 1 }, s.nextId)

end EventEmitter

/-- One observable delivery action of an `emit` call: a listener invocation
(mod.ts:295), a write to a per-event consumer (mod.ts:304), or a write to a
global consumer (mod.ts:308-311). -/
inductive Act (N P : Type) where
  | call (cb : Cb) (payload : P)
  | write (id : Nat) (payload : P)
  | gwrite (id : Nat) (name : N) (payload : P)
deriving Repr, DecidableEq

/-- One defunctionalised effect a listener callback may perform on its own
emitter while being invoked: the registration calls, targeted removal,
consumer creation, or a reentrant `emit`.  A registration that would throw is
modelled as caught by the callback (state unchanged). -/
inductive Eff (N P : Type) where
  | onL (name : N) (cb : Cb)
  | onceL (name : N) (cb : Cb)
  | offL (name : N) (cb : Cb)
  | stream (name : N)
  | emitE (name : N) (payload : P)
deriving Repr, DecidableEq

/-- The behaviour of callbacks: what effects the callback with identity `c`
performs when invoked with a given payload. -/
abbrev Env (N P : Type) := Cb → P → List (Eff N P)

/-- The environment of pure callbacks: no effect on the emitter. -/
def envPure : Env N P := fun _ _ => []

/-- Recover the state of a fallible registration attempted by a callback that
catches the error: the new state on success, the old one on a throw. -/
def orSelf (r : Except EmitterError (EventEmitter N P)) (s : EventEmitter N P) :
    EventEmitter N P :=
  match r with
  | .ok s' => s'
  | .error _ => s

/-- Interpret one callback effect.  `emitFn` performs a nested `emit` (it is
instantiated with `emit env fuel` at one less fuel). -/
def runEff (emitFn : EventEmitter N P → N → P → EventEmitter N P × List (Act N P))
    (e : Eff N P) (s : EventEmitter N P) : EventEmitter N P × List (Act N P) :=
  match e with
  | .onL n c => (orSelf (s.onCb n c) s, [])
  | .onceL n c => (orSelf (s.once n c) s, [])
  | .offL n c => (s.offCb n c, [])
  | .stream n =>
      (match s.onStream n with
       | .ok (s', _) => s'
       | .error _ => s, [])
  | .emitE n p => emitFn s n p

/-- Interpret a callback's effect list, left to right, threading the state
and concatenating the traces of nested emits. -/
def runEffs (emitFn : EventEmitter N P → N → P → EventEmitter N P × List (Act N P)) :
    List (Eff N P) → EventEmitter N P → EventEmitter N P × List (Act N P)
  | [], s => (s, [])
  | e :: rest, s =>
      let r := runEff emitFn e s
      let r' := runEffs emitFn rest r.1
      (r'.1, r.2 ++ r'.2)

/-- The listener loop of `emit` (mod.ts:293-300) over the snapshot
`this.listeners[eventName]?.slice() ?? []`: invoke each snapshotted callback
with the payload (running its effects), then, if its entry is flagged `once`,
run `this.off(eventName, cb)` — which removes from the live registry every
entry whose callback is identical to `cb`. -/
def invokeAll (emitFn : EventEmitter N P → N → P → EventEmitter N P × List (Act N P))
    (env : Env N P) (eventName : N) (payload : P) :
    List Listener → EventEmitter N P → EventEmitter N P × List (Act N P)
  | [], s => (s, [])
  | l :: rest, s =>
      let r := runEffs emitFn (env l.cb payload) s
      let s' := if l.once then r.1.offCb eventName l.cb else r.1
      let r' := invokeAll emitFn env eventName payload rest s'
      (r'.1, Act.call l.cb payload :: (r.2 ++ r'.2))

/-- The per-event consumer loop of `emit` (mod.ts:302-306): for each writer
currently in `onWriters[eventName]`, in order, `await writer.write(args)`. -/
def writeAll (s : EventEmitter N P) (eventName : N) (payload : P) :
    EventEmitter N P × List (Act N P) :=
  ({ s with
      onWriters := fun m =>
        if m = eventName then
          (s.onWriters eventName).map (fun w => { w with buf := w.buf ++ [payload] })
        else s.onWriters m },
   (s.onWriters eventName).map (fun w => Act.write w.id payload))

/-- The global consumer loop of `emit` (mod.ts:307-312): for each writer in
`globalWriters`, in order, `await writer.write({ name, value })`. -/
def writeGlobal (s : EventEmitter N P) (eventName : N) (payload : P) :
    EventEmitter N P × List (Act N P) :=
  ({ s with
      globalWriters :=
        s.globalWriters.map (fun w => { w with buf := w.buf ++ [(eventName, payload)] }) },
   s.globalWriters.map (fun w => Act.gwrite w.id eventName payload))

/-- The method `emit(eventName, ...args)` (mod.ts:292-313): snapshot the
listeners of `eventName`, invoke them (with `once` removal), then write the
payload to the per-event consumers, then to the global consumers.  Returns
the final state and the trace of delivery actions.  `fuel` bounds the depth
of reentrant `emit` calls performed by callbacks; a call at fuel `0` is
suppressed (every theorem below either supplies enough fuel for its scenario
or forbids reentrancy outright). -/
def emit (env : Env N P) : Nat → EventEmitter N P → N → P →
    EventEmitter N P × List (Act N P)
  | 0, s, _, _ => (s, [])
  | fuel + 1, s, eventName, payload =>
      let r1 := invokeAll (emit env fuel) env eventName payload
        (s.listeners eventName) s
      let r2 := writeAll r1.1 eventName payload
      let r3 := writeGlobal r2.1 eventName payload
      (r3.1, r1.2 ++ r2.2 ++ r3.2)

/-- A sequence of awaited `emit` calls by one sequential caller, each with
the same fuel bound for its nested reentrancy. -/
def emitSeq (env : Env N P) (fuel : Nat) :
    List (N × P) → EventEmitter N P → EventEmitter N P × List (Act N P)
  | [], s => (s, [])
  | (n, p) :: rest, s =>
      let r := emit env fuel s n p
      let r' := emitSeq env fuel rest r.1
      (r'.1, r.2 ++ r'.2)

/-- Is this action a listener invocation? -/
def Act.isCall : Act N P → Bool
  | .call _ _ => true
  | _ => false

/-- Is this action a per-event consumer write? -/
def Act.isWrite : Act N P → Bool
  | .write _ _ => true
  | _ => false

/-- The listener invocations of a trace, in order. -/
def callActs (tr : List (Act N P)) : List (Act N P) := tr.filter Act.isCall

/-- The per-event consumer writes of a trace, in order. -/
def writeActs (tr : List (Act N P)) : List (Act N P) := tr.filter Act.isWrite

/-- The payloads with which the callback `c` is invoked in a trace, in
order. -/
def callPayloads (tr : List (Act N P)) (c : Cb) : List P :=
  tr.filterMap (fun a =>
    match a with
    | .call c' q => if c' == c then some q else none
    | _ => none)

/-- How many times the callback `c` is invoked in a trace. -/
def countCalls (tr : List (Act N P)) (c : Cb) : Nat :=
  (callPayloads tr c).length

/-- Is this effect a reentrant `emit`? -/
def Eff.isEmit : Eff N P → Bool
  | .emitE _ _ => true
  | _ => false

/-- Does this effect register a listener entry whose callback is `c`? -/
def Eff.regsCb (c : Cb) : Eff N P → Bool
  | .onL _ c' => c' == c
  | .onceL _ c' => c' == c
  | _ => false

/-- Environments whose callbacks never call `emit` reentrantly (they may
still register and unregister listeners and create consumers). -/
def EnvNonReentrant (env : Env N P) : Prop :=
  ∀ c p e, e ∈ env c p → Eff.isEmit e = false

/-- Environments whose callbacks never register a listener entry with
callback identity `c`. -/
def NoRegOf (env : Env N P) (c : Cb) : Prop :=
  ∀ c' p e, e ∈ env c' p → Eff.regsCb c e = false

/-- No entry of `listeners n` has callback identity `c`. -/
def CbFree (s : EventEmitter N P) (n : N) (c : Cb) : Prop :=
  ∀ l ∈ s.listeners n, l.cb ≠ c

theorem runEff_snd_eq_nil
    (f : EventEmitter N P → N → P → EventEmitter N P × List (Act N P))
    (e : Eff N P) (s : EventEmitter N P) (h : e.isEmit = false) :
    (runEff f e s).2 = [] := by
  cases e <;> simp_all [runEff, Eff.isEmit]

theorem runEffs_snd_eq_nil
    (f : EventEmitter N P → N → P → EventEmitter N P × List (Act N P))
    (effs : List (Eff N P)) (s : EventEmitter N P)
    (h : ∀ e ∈ effs, Eff.isEmit e = false) :
    (runEffs f effs s).2 = [] := by
  induction effs generalizing s with
  | nil => simp [runEffs]
  | cons e rest ih =>
      simp only [runEffs, List.append_eq_nil]
      exact ⟨runEff_snd_eq_nil f e s (h e (by simp)),
        ih _ (fun e' he' => h e' (by simp [he']))⟩

theorem invokeAll_snd
    (f : EventEmitter N P → N → P → EventEmitter N P × List (Act N P))
    (env : Env N P) (n : N) (p : P) (snap : List Listener)
    (s : EventEmitter N P) (h : EnvNonReentrant env) :
    (invokeAll f env n p snap s).2 = snap.map fun l => Act.call l.cb p := by
  induction snap generalizing s with
  | nil => simp [invokeAll]
  | cons l rest ih =>
      simp [invokeAll, runEffs_snd_eq_nil f _ _ (fun e he => h l.cb p e he), ih]

theorem callActs_append (t1 t2 : List (Act N P)) :
    callActs (t1 ++ t2) = callActs t1 ++ callActs t2 :=
  List.filter_append ..

theorem writeActs_append (t1 t2 : List (Act N P)) :
    writeActs (t1 ++ t2) = writeActs t1 ++ writeActs t2 :=
  List.filter_append ..

theorem callActs_map_call (xs : List Listener) (p : P) :
    callActs ((xs.map fun l => Act.call l.cb p) : List (Act N P)) =
      xs.map fun l => Act.call l.cb p := by
  induction xs with
  | nil => rfl
  | cons x xs ih => simp only [List.map_cons, callActs, List.filter_cons,
      Act.isCall, callActs] at ih ⊢; simp [ih]

theorem callActs_map_write (ws : List (Consumer P)) (p : P) :
    callActs ((ws.map fun w => Act.write w.id p) : List (Act N P)) = [] := by
  induction ws with
  | nil => rfl
  | cons w ws ih => simpa [callActs, Act.isCall] using ih

theorem callActs_map_gwrite (ws : List (Consumer (N × P))) (n : N) (p : P) :
    callActs (ws.map fun w => Act.gwrite w.id n p) = [] := by
  induction ws with
  | nil => rfl
  | cons w ws ih => simpa [callActs, Act.isCall] using ih

theorem writeActs_map_call (xs : List Listener) (p : P) :
    writeActs ((xs.map fun l => Act.call l.cb p) : List (Act N P)) = [] := by
  induction xs with
  | nil => rfl
  | cons x xs ih => simpa [writeActs, Act.isWrite] using ih

theorem writeActs_map_write (ws : List (Consumer P)) (p : P) :
    writeActs ((ws.map fun w => Act.write w.id p) : List (Act N P)) =
      ws.map fun w => Act.write w.id p := by
  induction ws with
  | nil => rfl
  | cons w ws ih => simp only [List.map_cons, writeActs, List.filter_cons,
      Act.isWrite, writeActs] at ih ⊢; simp [ih]

theorem writeActs_map_gwrite (ws : List (Consumer (N × P))) (n : N) (p : P) :
    writeActs (ws.map fun w => Act.gwrite w.id n p) = [] := by
  induction ws with
  | nil => rfl
  | cons w ws ih => simpa [writeActs, Act.isWrite] using ih

theorem callPayloads_append (t1 t2 : List (Act N P)) (c : Cb) :
    callPayloads (t1 ++ t2) c = callPayloads t1 c ++ callPayloads t2 c :=
  List.filterMap_append ..

theorem callPayloads_map_call (xs : List Listener) (p : P) (c : Cb) :
    callPayloads ((xs.map fun l => Act.call l.cb p) : List (Act N P)) c =
      List.replicate ((xs.filter fun l => l.cb == c)).length p := by
  induction xs with
  | nil => rfl
  | cons x xs ih =>
      by_cases hx : x.cb = c
      · simp only [List.map_cons, callPayloads, List.filterMap_cons,
          List.filter_cons, List.filterMap_map, beq_iff_eq, hx] at ih ⊢
        simp [ih, List.replicate_succ]
      · simp only [List.map_cons, callPayloads, List.filterMap_cons,
          List.filter_cons, List.filterMap_map, beq_iff_eq] at ih ⊢
        simp [hx, ih]

theorem callPayloads_map_write (ws : List (Consumer P)) (p : P) (c : Cb) :
    callPayloads ((ws.map fun w => Act.write w.id p) : List (Act N P)) c = [] := by
  induction ws with
  | nil => rfl
  | cons w ws ih => simpa [callPayloads] using ih

theorem callPayloads_map_gwrite (ws : List (Consumer (N × P))) (n : N) (p : P)
    (c : Cb) :
    callPayloads (ws.map fun w => Act.gwrite w.id n p) c = [] := by
  induction ws with
  | nil => rfl
  | cons w ws ih => simpa [callPayloads] using ih

theorem cbFree_push (s : EventEmitter N P) (n n' : N) (c : Cb) (e : Listener)
    (h : CbFree s n c) (hne : e.cb ≠ c) :
    CbFree { s with listeners := fun m =>
      if m = n' then s.listeners n' ++ [e] else s.listeners m } n c := by
  intro l hl
  dsimp only at hl
  by_cases hn : n = n'
  · subst hn
    rw [if_pos rfl] at hl
    rcases List.mem_append.mp hl with h1 | h1
    · exact h l h1
    · rw [List.mem_singleton.mp h1]
      exact hne
  · rw [if_neg hn] at hl
    exact h l hl

theorem cbFree_offCb (s : EventEmitter N P) (n n' : N) (c c' : Cb)
    (h : CbFree s n c) : CbFree (s.offCb n' c') n c := by
  intro l hl
  dsimp only [EventEmitter.offCb] at hl
  by_cases hn : n = n'
  · subst hn
    rw [if_pos rfl] at hl
    exact h l (List.mem_of_mem_filter hl)
  · rw [if_neg hn] at hl
    exact h l hl

theorem cbFree_offCb_self (s : EventEmitter N P) (n : N) (c : Cb) :
    CbFree (s.offCb n c) n c := by
  intro l hl
  dsimp only [EventEmitter.offCb] at hl
  rw [if_pos rfl] at hl
  have := List.of_mem_filter hl
  simpa using this

theorem cbFree_runEff
    (f : EventEmitter N P → N → P → EventEmitter N P × List (Act N P))
    (e : Eff N P) (s : EventEmitter N P) (n : N) (c : Cb)
    (hemit : e.isEmit = false) (hreg : Eff.regsCb c e = false)
    (h : CbFree s n c) : CbFree (runEff f e s).1 n c := by
  cases e with
  | onL n' c' =>
      have hne : c' ≠ c := by simpa [Eff.regsCb] using hreg
      by_cases hL : s.limit ≠ 0 ∧ (s.listeners n').length ≥ s.limit
      · simpa [runEff, EventEmitter.onCb, hL, orSelf] using h
      · simpa [runEff, EventEmitter.onCb, hL, orSelf] using
          cbFree_push s n n' c ⟨false, c'⟩ h hne
  | onceL n' c' =>
      have hne : c' ≠ c := by simpa [Eff.regsCb] using hreg
      by_cases hL : s.limit ≠ 0 ∧ (s.listeners n').length ≥ s.limit
      · simpa [runEff, EventEmitter.once, hL, orSelf] using h
      · simpa [runEff, EventEmitter.once, hL, orSelf] using
          cbFree_push s n n' c ⟨true, c'⟩ h hne
  | offL n' c' => exact cbFree_offCb s n n' c c' h
  | stream n' =>
      by_cases hL : s.limit ≠ 0 ∧ (s.onWriters n').length ≥ s.limit
      · simpa [runEff, EventEmitter.onStream, hL] using h
      · simpa [runEff, EventEmitter.onStream, hL] using h
  | emitE n' p' => simp [Eff.isEmit] at hemit

theorem cbFree_runEffs
    (f : EventEmitter N P → N → P → EventEmitter N P × List (Act N P))
    (effs : List (Eff N P)) (s : EventEmitter N P) (n : N) (c : Cb)
    (hemit : ∀ e ∈ effs, Eff.isEmit e = false)
    (hreg : ∀ e ∈ effs, Eff.regsCb c e = false)
    (h : CbFree s n c) : CbFree (runEffs f effs s).1 n c := by
  induction effs generalizing s with
  | nil => simpa [runEffs] using h
  | cons e rest ih =>
      simp only [runEffs]
      exact ih _ (fun e' he' => hemit e' (by simp [he']))
        (fun e' he' => hreg e' (by simp [he']))
        (cbFree_runEff f e s n c (hemit e (by simp)) (hreg e (by simp)) h)

theorem cbFree_invokeAll
    (f : EventEmitter N P → N → P → EventEmitter N P × List (Act N P))
    (env : Env N P) (n₀ : N) (p : P) (snap : List Listener)
    (s : EventEmitter N P) (n : N) (c : Cb)
    (henv : EnvNonReentrant env) (hreg : NoRegOf env c)
    (h : CbFree s n c) : CbFree (invokeAll f env n₀ p snap s).1 n c := by
  induction snap generalizing s with
  | nil => simpa [invokeAll] using h
  | cons l rest ih =>
      simp only [invokeAll]
      refine ih _ ?_
      have h1 : CbFree (runEffs f (env l.cb p) s).1 n c :=
        cbFree_runEffs f _ s n c (fun e he => henv l.cb p e he)
          (fun e he => hreg l.cb p e he) h
      by_cases ho : l.once
      · simpa [ho] using cbFree_offCb _ n n₀ c l.cb h1
      · simpa [ho] using h1

theorem cbFree_invokeAll_once_mem
    (f : EventEmitter N P → N → P → EventEmitter N P × List (Act N P))
    (env : Env N P) (n : N) (p : P) (snap : List Listener)
    (s : EventEmitter N P) (c : Cb)
    (henv : EnvNonReentrant env) (hreg : NoRegOf env c)
    (hmem : ∃ l, l ∈ snap ∧ l.once = true ∧ l.cb = c) :
    CbFree (invokeAll f env n p snap s).1 n c := by
  induction snap generalizing s with
  | nil =>
      rcases hmem with ⟨l, hl, -⟩
      simp at hl
  | cons l rest ih =>
      rcases hmem with ⟨l', hl', ho', hc'⟩
      rcases List.mem_cons.mp hl' with rfl | hmem'
      · simp only [invokeAll, ho', if_pos]
        subst hc'
        exact cbFree_invokeAll f env n p rest _ n l'.cb henv hreg
          (cbFree_offCb_self _ n l'.cb)
      · simp only [invokeAll]
        exact ih _ ⟨l', hmem', ho', hc'⟩

theorem countCalls_append (t1 t2 : List (Act N P)) (c : Cb) :
    countCalls (t1 ++ t2) c = countCalls t1 c + countCalls t2 c := by
  simp [countCalls, callPayloads_append]

theorem filter_eq_nil_of_cbFree (s : EventEmitter N P) (n : N) (c : Cb)
    (h : CbFree s n c) :
    ((s.listeners n).filter fun l => l.cb == c) = [] := by
  rw [List.filter_eq_nil_iff]
  intro l hl
  simpa using h l hl

theorem countCalls_emit (env : Env N P) (fuel : Nat) (s : EventEmitter N P)
    (n : N) (p : P) (c : Cb) (henv : EnvNonReentrant env) :
    countCalls (emit env (fuel + 1) s n p).2 c =
      ((s.listeners n).filter fun l => l.cb == c).length := by
  simp only [emit, countCalls, callPayloads_append,
    invokeAll_snd _ _ _ _ _ _ henv, writeAll, writeGlobal,
    callPayloads_map_call, callPayloads_map_write, callPayloads_map_gwrite]
  simp

theorem cbFree_emit (env : Env N P) (fuel : Nat) (s : EventEmitter N P)
    (n' : N) (p : P) (n : N) (c : Cb)
    (henv : EnvNonReentrant env) (hreg : NoRegOf env c)
    (h : CbFree s n c) : CbFree (emit env fuel s n' p).1 n c := by
  cases fuel with
  | zero => simpa [emit] using h
  | succ fuel =>
      simp only [emit]
      exact cbFree_invokeAll (emit env fuel) env n' p _ s n c henv hreg h

theorem countCalls_emitSeq_of_cbFree (env : Env N P) (n : N) (c : Cb)
    (ps : List P) (fuel : Nat) (s : EventEmitter N P)
    (henv : EnvNonReentrant env) (hreg : NoRegOf env c) (h : CbFree s n c) :
    countCalls (emitSeq env (fuel + 1) (ps.map fun p => (n, p)) s).2 c = 0 ∧
    CbFree (emitSeq env (fuel + 1) (ps.map fun p => (n, p)) s).1 n c := by
  induction ps generalizing s with
  | nil => exact ⟨rfl, h⟩
  | cons p ps ih =>
      simp only [List.map_cons, emitSeq, countCalls_append]
      have hnext := cbFree_emit env (fuel + 1) s n p n c henv hreg h
      refine ⟨?_, (ih _ hnext).2⟩
      rw [countCalls_emit env fuel s n p c henv,
        filter_eq_nil_of_cbFree s n c h, (ih _ hnext).1]
      rfl

/-- Environments whose callbacks do nothing to the emitter at all. -/
def EnvInert (env : Env N P) : Prop := ∀ c p, env c p = []

theorem envInert_nonReentrant (env : Env N P) (h : EnvInert env) :
    EnvNonReentrant env := by
  intro c p e he
  rw [h c p] at he
  simp at he

theorem envInert_noRegOf (env : Env N P) (h : EnvInert env) (c : Cb) :
    NoRegOf env c := by
  intro c' p e he
  rw [h c' p] at he
  simp at he

theorem callPayloads_emit (env : Env N P) (fuel : Nat) (s : EventEmitter N P)
    (n : N) (p : P) (c : Cb) (henv : EnvNonReentrant env) :
    callPayloads (emit env (fuel + 1) s n p).2 c =
      List.replicate ((s.listeners n).filter fun l => l.cb == c).length p := by
  simp only [emit, callPayloads_append, invokeAll_snd _ _ _ _ _ _ henv,
    writeAll, writeGlobal, callPayloads_map_call, callPayloads_map_write,
    callPayloads_map_gwrite]
  simp

theorem callPayloads_eq_nil_of_countCalls (tr : List (Act N P)) (c : Cb)
    (h : countCalls tr c = 0) : callPayloads tr c = [] :=
  List.eq_nil_of_length_eq_zero h

theorem runEffs_nil_state (f : EventEmitter N P → N → P → EventEmitter N P × List (Act N P))
    (s : EventEmitter N P) : runEffs f [] s = (s, []) := rfl

theorem invokeAll_listeners_inert
    (f : EventEmitter N P → N → P → EventEmitter N P × List (Act N P))
    (env : Env N P) (n : N) (p : P) (henv : EnvInert env) :
    ∀ (snap : List Listener) (t : EventEmitter N P),
    (invokeAll f env n p snap t).1.listeners n =
      (t.listeners n).filter
        (fun l => !(snap.any fun l2 => l2.once && l2.cb == l.cb)) := by
  intro snap
  induction snap with
  | nil =>
      intro t
      simp [invokeAll]
  | cons l rest ih =>
      intro t
      simp only [invokeAll, henv l.cb p, runEffs_nil_state]
      by_cases ho : l.once
      · rw [if_pos ho, ih]
        dsimp only [EventEmitter.offCb]
        rw [if_pos rfl, List.filter_filter]
        apply List.filter_congr
        intro x _
        by_cases hx : x.cb = l.cb
        · simp [hx, ho, List.any_cons, Bool.not_or]
        · have hb1 : (x.cb != l.cb) = true := by simp [hx]
          have hb2 : (l.cb == x.cb) = false := by simp [Ne.symm hx]
          simp [hb1, hb2, ho, List.any_cons, Bool.not_or]
      · rw [if_neg ho, ih]
        apply List.filter_congr
        intro x _
        have hol : l.once = false := by simpa using ho
        simp [List.any_cons, hol]

theorem emit_listeners_inert (env : Env N P) (fuel : Nat)
    (s : EventEmitter N P) (n : N) (p : P) (henv : EnvInert env) :
    (emit env (fuel + 1) s n p).1.listeners n =
      (s.listeners n).filter
        (fun l => !((s.listeners n).any fun l2 => l2.once && l2.cb == l.cb)) := by
  simp only [emit]
  have := invokeAll_listeners_inert (emit env fuel) env n p henv
    (s.listeners n) s
  simpa [writeAll, writeGlobal] using this

theorem emit_quiet (env : Env N P) (fuel : Nat) (s : EventEmitter N P)
    (n : N) (p : P) (h1 : ∀ m, s.listeners m = [])
    (h2 : ∀ m, s.onWriters m = []) (h3 : s.globalWriters = []) :
    (emit env fuel s n p).2 = [] ∧
    (∀ m, (emit env fuel s n p).1.listeners m = []) ∧
    (∀ m, (emit env fuel s n p).1.onWriters m = []) ∧
    (emit env fuel s n p).1.globalWriters = [] ∧
    (emit env fuel s n p).1.closedOn = s.closedOn ∧
    (emit env fuel s n p).1.closedGlobal = s.closedGlobal := by
  cases fuel with
  | zero => exact ⟨rfl, h1, h2, h3, rfl, rfl⟩
  | succ fuel =>
      refine ⟨?_, fun m => ?_, fun m => ?_, ?_, ?_, ?_⟩ <;>
        simp [emit, invokeAll, writeAll, writeGlobal, h1, h2, h3]

theorem emitSeq_quiet (env : Env N P) (fuel : Nat) (calls : List (N × P))
    (s : EventEmitter N P) (h1 : ∀ m, s.listeners m = [])
    (h2 : ∀ m, s.onWriters m = []) (h3 : s.globalWriters = []) :
    (emitSeq env fuel calls s).2 = [] ∧
    (emitSeq env fuel calls s).1.closedOn = s.closedOn ∧
    (emitSeq env fuel calls s).1.closedGlobal = s.closedGlobal := by
  induction calls generalizing s with
  | nil => exact ⟨rfl, rfl, rfl⟩
  | cons nq rest ih =>
      obtain ⟨n, q⟩ := nq
      obtain ⟨e1, e2, e3, e4, e5, e6⟩ := emit_quiet env fuel s n q h1 h2 h3
      obtain ⟨r1, r2, r3⟩ := ih (emit env fuel s n q).1 e2 e3 e4
      simp only [emitSeq]
      exact ⟨by rw [e1, r1]; rfl, by rw [r2, e5], by rw [r3, e6]⟩

/-- A demonstration emitter used by witnesses: limit 10, a persistent
listener `1` and a once listener `2` on event `0`, one per-event consumer on
event `0`, one global consumer. -/
def demoEmitter : EventEmitter Nat Nat :=
  let s0 := mkEmitter Nat Nat 10
  let s1 := orSelf (s0.onCb 0 1) s0
  let s2 := orSelf (s1.once 0 2) s1
  let s3 := match s2.onStream 0 with | .ok (s, _) => s | .error _ => s2
  match s3.asyncIterator with | .ok (s, _) => s | .error _ => s3

/-- Claim C1: within one `emit(name, payload)` call, delivery happens in
order: first every snapshotted per-event listener of `name`, in registration
order (the global-listener group of the claim is empty in this
implementation: no registration path for global callback listeners exists,
see C5), then the payload is written to every per-event consumer of `name`
present in the live registry after the listener phase, in registration
order, each write completing before the next, then `(name, payload)` to
every global consumer in registration order; no consumer write occurs before
all listener invocations of the call have returned (the trace is the
concatenation of the three phases).  Stated for callbacks that do not emit
reentrantly. -/
theorem emit_delivery_order (env : Env N P) (fuel : Nat)
    (s : EventEmitter N P) (n : N) (p : P) (henv : EnvNonReentrant env) :
    (emit env (fuel + 1) s n p).2 =
      ((s.listeners n).map fun l => Act.call l.cb p) ++
      (((invokeAll (emit env fuel) env n p (s.listeners n) s).1.onWriters n).map
        fun w => Act.write w.id p) ++
      ((invokeAll (emit env fuel) env n p (s.listeners n) s).1.globalWriters.map
        fun w => Act.gwrite w.id n p) := by
  simp [emit, writeAll, writeGlobal, invokeAll_snd _ _ _ _ _ _ henv]

theorem envPure_nonReentrant : EnvNonReentrant (envPure : Env N P) := by
  intro c p e he
  simp [envPure] at he

/-- Witness for C1 at the demonstration emitter. -/
theorem emit_delivery_order_witness :
    EnvNonReentrant (envPure : Env Nat Nat) ∧
    (emit envPure 1 demoEmitter 0 5).2 =
      ((demoEmitter.listeners 0).map fun l => Act.call l.cb 5) ++
      (((invokeAll (emit envPure 0) envPure 0 5 (demoEmitter.listeners 0)
          demoEmitter).1.onWriters 0).map fun w => Act.write w.id 5) ++
      ((invokeAll (emit envPure 0) envPure 0 5 (demoEmitter.listeners 0)
          demoEmitter).1.globalWriters.map fun w => Act.gwrite w.id 0 5) :=
  ⟨envPure_nonReentrant,
   emit_delivery_order envPure 0 demoEmitter 0 5 envPure_nonReentrant⟩

/-- Claim C3: with a nonzero configured limit, any registration attempted
while the relevant count already equals the limit raises `LimitExceeded`
synchronously, and the registries are left exactly as they were (the error
return carries no new state; the only source mutation preceding the throw is
initialising an absent key to an empty array, which this model identifies
with the absent key).  Covers per-event listeners via `on` and both `once`
forms, per-event consumers via `on(name)`, and global consumers via the
async iterator. -/
theorem limit_blocks_registration (s : EventEmitter N P) (n : N) (c : Cb)
    (hL : s.limit ≠ 0) :
    ((s.listeners n).length = s.limit →
      s.onCb n c = .error (.limitExceeded s.limit) ∧
      s.once n c = .error (.limitExceeded s.limit) ∧
      s.oncePromise n = .error (.limitExceeded s.limit)) ∧
    ((s.onWriters n).length = s.limit →
      s.onStream n = .error (.limitExceeded s.limit)) ∧
    (s.globalWriters.length = s.limit →
      s.asyncIterator = .error (.limitExceeded s.limit)) := by
  refine ⟨fun h => ?_, fun h => ?_, fun h => ?_⟩ <;>
    simp [EventEmitter.onCb, EventEmitter.once, EventEmitter.oncePromise,
      EventEmitter.onStream, EventEmitter.asyncIterator, h, hL]

/-- An emitter with limit 2 whose event `0` already holds two listeners. -/
def limitDemo : EventEmitter Nat Nat :=
  let s0 := mkEmitter Nat Nat 2
  let s1 := orSelf (s0.onCb 0 1) s0
  orSelf (s1.onCb 0 2) s1

/-- Witness for C3: at limit 2 with two listeners registered on event `0`, a
third registration of any form on event `0` raises `LimitExceeded 2`. -/
theorem limit_blocks_registration_witness :
    limitDemo.onCb 0 3 = .error (.limitExceeded 2) ∧
    limitDemo.once 0 3 = .error (.limitExceeded 2) ∧
    limitDemo.oncePromise 0 = .error (.limitExceeded 2) :=
  (limit_blocks_registration limitDemo 0 3 (by decide)).1 (by decide)

/-- Claim C7: within one `emit(name, payload)` call, the listeners invoked
are exactly the snapshot of `listeners[name]` taken at the start of the call
(listeners added or removed by side effects of invoked listeners do not
change which callbacks this call invokes), while the per-event consumers
written to are exactly those in the live registry after the listener
phase (so a consumer created by a listener's side effect during this call is
written to).  Stated for callbacks that do not emit reentrantly. -/
theorem emit_snapshot_listeners_live_consumers (env : Env N P) (fuel : Nat)
    (s : EventEmitter N P) (n : N) (p : P) (henv : EnvNonReentrant env) :
    callActs (emit env (fuel + 1) s n p).2 =
      ((s.listeners n).map fun l => Act.call l.cb p) ∧
    writeActs (emit env (fuel + 1) s n p).2 =
      (((invokeAll (emit env fuel) env n p (s.listeners n) s).1.onWriters n).map
        fun w => Act.write w.id p) := by
  constructor <;>
    simp [emit, writeAll, writeGlobal, invokeAll_snd _ _ _ _ _ _ henv,
      callActs_append, writeActs_append, callActs_map_call, callActs_map_write,
      callActs_map_gwrite, writeActs_map_call, writeActs_map_write,
      writeActs_map_gwrite]

/-- An environment in which callback `1` registers listener `5` on event `0`
and creates a per-event consumer of event `0` while being invoked. -/
def effEnv : Env Nat Nat :=
  fun c _ => if c = 1 then [Eff.onL 0 5, Eff.stream 0] else []

theorem effEnv_nonReentrant : EnvNonReentrant effEnv := by
  intro c p e he
  unfold effEnv at he
  by_cases hc : c = 1
  · rw [if_pos hc] at he
    simp only [List.mem_cons, List.not_mem_nil, or_false] at he
    rcases he with rfl | rfl
    · rfl
    · rfl
  · rw [if_neg hc] at he
    simp at he

/-- An emitter with only the persistent listener `1` on event `0`. -/
def snapDemo : EventEmitter Nat Nat :=
  let s0 := mkEmitter Nat Nat 10
  orSelf (s0.onCb 0 1) s0

/-- Witness for C7: callback `1` adds listener `5` and a consumer during the
call; the invoked set is still only the snapshot (callback `1`), while the
consumer created mid-call does receive the write. -/
theorem emit_snapshot_listeners_live_consumers_witness :
    EnvNonReentrant effEnv ∧
    (callActs (emit effEnv 1 snapDemo 0 9).2 =
      ((snapDemo.listeners 0).map fun l => Act.call l.cb 9) ∧
    writeActs (emit effEnv 1 snapDemo 0 9).2 =
      (((invokeAll (emit effEnv 0) effEnv 0 9 (snapDemo.listeners 0)
          snapDemo).1.onWriters 0).map fun w => Act.write w.id 9)) :=
  ⟨effEnv_nonReentrant,
   emit_snapshot_listeners_live_consumers effEnv 0 snapDemo 0 9
     effEnv_nonReentrant⟩

/-- Claim C8: `off(name)` with no callback clears all listener entries of
`name` and closes and removes all per-event consumers of `name` (their
readers keep what was already written and then observe end of sequence),
while leaving untouched the listeners and per-event consumers of every other
event name, the global consumers, and the closed pools of other names.  (The
global-listener registry of the claim does not exist in this implementation;
there is nothing of that kind to be preserved.) -/
theorem off_name_scoped (s : EventEmitter N P) (n m : N) (hm : m ≠ n) :
    (s.offName n).listeners n = [] ∧
    (s.offName n).onWriters n = [] ∧
    (s.offName n).closedOn n = s.closedOn n ++ s.onWriters n ∧
    (s.offName n).listeners m = s.listeners m ∧
    (s.offName n).onWriters m = s.onWriters m ∧
    (s.offName n).closedOn m = s.closedOn m ∧
    (s.offName n).globalWriters = s.globalWriters ∧
    (s.offName n).closedGlobal = s.closedGlobal := by
  simp [EventEmitter.offName, hm]

/-- Witness for C8 at the demonstration emitter, names 0 and 1. -/
theorem off_name_scoped_witness :
    (demoEmitter.offName 0).listeners 0 = [] ∧
    (demoEmitter.offName 0).onWriters 0 = [] ∧
    (demoEmitter.offName 0).closedOn 0 =
      demoEmitter.closedOn 0 ++ demoEmitter.onWriters 0 ∧
    (demoEmitter.offName 0).listeners 1 = demoEmitter.listeners 1 ∧
    (demoEmitter.offName 0).onWriters 1 = demoEmitter.onWriters 1 ∧
    (demoEmitter.offName 0).closedOn 1 = demoEmitter.closedOn 1 ∧
    (demoEmitter.offName 0).globalWriters = demoEmitter.globalWriters ∧
    (demoEmitter.offName 0).closedGlobal = demoEmitter.closedGlobal :=
  off_name_scoped demoEmitter 0 1 (by decide)

/-- Claim C10: `emit(name, payload)` on a name with no listeners and no
per-event consumers, while no global consumers exist, completes normally,
invokes nothing, writes nothing, and returns the state unchanged. -/
theorem emit_without_observers_noop (env : Env N P) (fuel : Nat)
    (s : EventEmitter N P) (n : N) (p : P)
    (h1 : s.listeners n = []) (h2 : s.onWriters n = [])
    (h3 : s.globalWriters = []) :
    emit env fuel s n p = (s, []) := by
  cases fuel with
  | zero => rfl
  | succ fuel =>
      obtain ⟨ls, ow, gw, lim, nid, con, cg⟩ := s
      simp only at h1 h2 h3
      subst h3
      have hfun : (fun m => if m = n then ([] : List (Consumer P)) else ow m)
          = ow := by
        funext m
        by_cases hm : m = n
        · subst hm
          rw [if_pos rfl]
          exact h2.symm
        · simp [hm]
      simp only [emit, h1, invokeAll, writeAll, writeGlobal, h2, List.map_nil]
      rw [hfun]
      rfl

/-- An emitter with a listener and a consumer on event `0` only, and no
global consumer. -/
def perEventOnly : EventEmitter Nat Nat :=
  let s0 := mkEmitter Nat Nat 10
  let s1 := orSelf (s0.onCb 0 1) s0
  match s1.onStream 0 with
  | .ok (s, _) => s
  | .error _ => s1

/-- Witness for C10: emitting event `1`, which has no observers, is a
no-op. -/
theorem emit_without_observers_noop_witness :
    emit envPure 3 perEventOnly 1 7 = (perEventOnly, []) :=
  emit_without_observers_noop envPure 3 perEventOnly 1 7 (by decide)
    (by decide) (by decide)

theorem envPure_noRegOf (c : Cb) : NoRegOf (envPure : Env N P) c := by
  intro c' p e he
  simp [envPure] at he

/-- An emitter whose event `0` carries exactly the once listener `7`. -/
def onceOnly : EventEmitter Nat Nat :=
  orSelf ((mkEmitter Nat Nat 10).once 0 7) (mkEmitter Nat Nat 10)

/-- The callback `7` reentrantly emits event `0` with payload `1` when
invoked with payload `0`, and does nothing otherwise — a JS callback closing
over its emitter, `(p) => { if (p === 0) emitter.emit(0, 1) }`. -/
def reentrantEnv : Env Nat Nat :=
  fun c p => if c = 7 ∧ p = 0 then [Eff.emitE 0 1] else []

/-- Counterexample to claim C2 as stated: with the once listener `7`
registered on event `0` and nothing else, a single `emit(0, 0)` during which
the callback reentrantly emits event `0` invokes the callback twice, not
exactly once — the snapshot of the reentrant emit still contains the entry,
because `emit` removes a once entry only after its callback returns
(mod.ts:295-299). -/
theorem once_reentrant_double_invocation :
    countCalls (emit reentrantEnv 5 onceOnly 0 0).2 7 = 2 ∧
    countCalls (emit reentrantEnv 5 onceOnly 0 0).2 7 ≠ 1 := by
  decide

/-- Does this effect reentrantly emit the event `n`?  (Reentrant emits of
other events are a separate, weaker concern.) -/
def Eff.emitsName (n : N) : Eff N P → Bool
  | .emitE m _ => m == n
  | _ => false

/-- Environments whose callbacks never reentrantly emit the event `n`; they
may still reentrantly emit other events, register, unregister, and create
consumers. -/
def NoEmitOf (env : Env N P) (n : N) : Prop :=
  ∀ c p e, e ∈ env c p → Eff.emitsName n e = false

/-- No entry of any event other than `n` has callback identity `c`. -/
def CbFreeExcept (s : EventEmitter N P) (n : N) (c : Cb) : Prop :=
  ∀ m, m ≠ n → CbFree s m c

/-- A nested-emit function that is safe with respect to the callback `c` and
the event `n`: invoked at any other event on a state in which `c` lives only
under `n`, it invokes `c` zero times, keeps `c` out of other events, and
preserves the absence of `c` under `n`. -/
def EmitFnSafe
    (f : EventEmitter N P → N → P → EventEmitter N P × List (Act N P))
    (n : N) (c : Cb) : Prop :=
  ∀ s m q, m ≠ n → CbFreeExcept s n c →
    countCalls (f s m q).2 c = 0 ∧ CbFreeExcept (f s m q).1 n c ∧
    (CbFree s n c → CbFree (f s m q).1 n c)

theorem countCalls_cons_call_ne (cb' : Cb) (q : P) (tr : List (Act N P))
    (c : Cb) (h : cb' ≠ c) :
    countCalls (Act.call cb' q :: tr) c = countCalls tr c := by
  simp [countCalls, callPayloads, h]

theorem countCalls_cons_call_self (q : P) (tr : List (Act N P)) (c : Cb) :
    countCalls (Act.call c q :: tr) c = countCalls tr c + 1 := by
  simp [countCalls, callPayloads]

theorem countCalls_map_write (ws : List (Consumer P)) (q : P) (c : Cb) :
    countCalls ((ws.map fun w => Act.write w.id q) : List (Act N P)) c = 0 := by
  simp [countCalls, callPayloads_map_write]

theorem countCalls_map_gwrite (ws : List (Consumer (N × P))) (n : N) (q : P)
    (c : Cb) :
    countCalls (ws.map fun w => Act.gwrite w.id n q) c = 0 := by
  simp [countCalls, callPayloads_map_gwrite]

theorem countFree_runEff
    (f : EventEmitter N P → N → P → EventEmitter N P × List (Act N P))
    (n : N) (c : Cb) (e : Eff N P) (s : EventEmitter N P)
    (hf : EmitFnSafe f n c)
    (hname : Eff.emitsName n e = false) (hreg : Eff.regsCb c e = false)
    (hexc : CbFreeExcept s n c) :
    countCalls (runEff f e s).2 c = 0 ∧
    CbFreeExcept (runEff f e s).1 n c ∧
    (CbFree s n c → CbFree (runEff f e s).1 n c) := by
  cases e with
  | emitE m q =>
      have hm : m ≠ n := by simpa [Eff.emitsName] using hname
      exact hf s m q hm hexc
  | onL m' c' =>
      exact ⟨rfl, fun m hm => cbFree_runEff f _ s m c rfl hreg (hexc m hm),
        fun hn => cbFree_runEff f _ s n c rfl hreg hn⟩
  | onceL m' c' =>
      exact ⟨rfl, fun m hm => cbFree_runEff f _ s m c rfl hreg (hexc m hm),
        fun hn => cbFree_runEff f _ s n c rfl hreg hn⟩
  | offL m' c' =>
      exact ⟨rfl, fun m hm => cbFree_runEff f _ s m c rfl hreg (hexc m hm),
        fun hn => cbFree_runEff f _ s n c rfl hreg hn⟩
  | stream m' =>
      exact ⟨rfl, fun m hm => cbFree_runEff f _ s m c rfl hreg (hexc m hm),
        fun hn => cbFree_runEff f _ s n c rfl hreg hn⟩

theorem countFree_runEffs
    (f : EventEmitter N P → N → P → EventEmitter N P × List (Act N P))
    (n : N) (c : Cb) (effs : List (Eff N P)) (s : EventEmitter N P)
    (hf : EmitFnSafe f n c)
    (hname : ∀ e ∈ effs, Eff.emitsName n e = false)
    (hreg : ∀ e ∈ effs, Eff.regsCb c e = false)
    (hexc : CbFreeExcept s n c) :
    countCalls (runEffs f effs s).2 c = 0 ∧
    CbFreeExcept (runEffs f effs s).1 n c ∧
    (CbFree s n c → CbFree (runEffs f effs s).1 n c) := by
  induction effs generalizing s with
  | nil => exact ⟨rfl, hexc, fun h => h⟩
  | cons e rest ih =>
      obtain ⟨h1, h2, h3⟩ := countFree_runEff f n c e s hf (hname e (by simp))
        (hreg e (by simp)) hexc
      obtain ⟨g1, g2, g3⟩ := ih _ (fun e' he' => hname e' (by simp [he']))
        (fun e' he' => hreg e' (by simp [he'])) h2
      refine ⟨?_, g2, fun hn => g3 (h3 hn)⟩
      simp only [runEffs, countCalls_append, h1, g1]

/-- The zero-count form of the listener phase: a snapshot free of the
callback `c`, run at any event `n₀`, in a state where `c` lives only under
`n`, invokes `c` zero times and preserves both absence invariants. -/
theorem countFree_invokeAll
    (f : EventEmitter N P → N → P → EventEmitter N P × List (Act N P))
    (env : Env N P) (n₀ : N) (p : P) (n : N) (c : Cb) (snap : List Listener)
    (s : EventEmitter N P)
    (hf : EmitFnSafe f n c)
    (hname : NoEmitOf env n) (hreg : NoRegOf env c)
    (hsnap : ∀ l ∈ snap, l.cb ≠ c)
    (hexc : CbFreeExcept s n c) :
    countCalls (invokeAll f env n₀ p snap s).2 c = 0 ∧
    CbFreeExcept (invokeAll f env n₀ p snap s).1 n c ∧
    (CbFree s n c → CbFree (invokeAll f env n₀ p snap s).1 n c) := by
  induction snap generalizing s with
  | nil => exact ⟨rfl, hexc, fun h => h⟩
  | cons l rest ih =>
      obtain ⟨h1, h2, h3⟩ := countFree_runEffs f n c (env l.cb p) s hf
        (fun e he => hname l.cb p e he) (fun e he => hreg l.cb p e he) hexc
      have h2' : CbFreeExcept
          (if l.once then (runEffs f (env l.cb p) s).1.offCb n₀ l.cb
           else (runEffs f (env l.cb p) s).1) n c := by
        by_cases ho : l.once
        · rw [if_pos ho]
          exact fun m hm => cbFree_offCb _ m n₀ c l.cb (h2 m hm)
        · rw [if_neg ho]
          exact h2
      have h3' : CbFree s n c → CbFree
          (if l.once then (runEffs f (env l.cb p) s).1.offCb n₀ l.cb
           else (runEffs f (env l.cb p) s).1) n c := by
        intro hn
        by_cases ho : l.once
        · rw [if_pos ho]
          exact cbFree_offCb _ n n₀ c l.cb (h3 hn)
        · rw [if_neg ho]
          exact h3 hn
      obtain ⟨g1, g2, g3⟩ := ih _ (fun l' hl' => hsnap l' (by simp [hl'])) h2'
      refine ⟨?_, g2, fun hn => g3 (h3' hn)⟩
      have hl : l.cb ≠ c := hsnap l (by simp)
      simp only [invokeAll]
      rw [countCalls_cons_call_ne _ _ _ _ hl, countCalls_append, h1, g1]

/-- For an environment that never reentrantly emits `n` and never
re-registers `c`, `emit` at any fuel is a safe nested-emit function for `n`
and `c`. -/
theorem emitFnSafe_emit (env : Env N P) (n : N) (c : Cb)
    (hname : NoEmitOf env n) (hreg : NoRegOf env c) :
    ∀ fuel, EmitFnSafe (emit env fuel) n c := by
  intro fuel
  induction fuel with
  | zero => exact fun s m q hm hexc => ⟨rfl, hexc, fun h => h⟩
  | succ fuel ih =>
      intro s m q hm hexc
      obtain ⟨h1, h2, h3⟩ := countFree_invokeAll (emit env fuel) env m q n c
        (s.listeners m) s ih hname hreg (hexc m hm) hexc
      refine ⟨?_, fun m' hm' => h2 m' hm', fun hn => h3 hn⟩
      simp only [emit, countCalls_append, h1, writeAll, writeGlobal,
        countCalls_map_write, countCalls_map_gwrite]

/-- The one-count form of the listener phase at event `n` itself: the
snapshot holds exactly one entry with callback `c`, a once entry; the phase
invokes `c` exactly once, removes every entry of `n` whose callback is `c`,
and afterwards `c` is gone from the whole emitter. -/
theorem count_one_invokeAll
    (f : EventEmitter N P → N → P → EventEmitter N P × List (Act N P))
    (env : Env N P) (n : N) (p : P) (c : Cb) (pre post : List Listener)
    (s : EventEmitter N P)
    (hf : EmitFnSafe f n c)
    (hname : NoEmitOf env n) (hreg : NoRegOf env c)
    (hpre : ∀ l ∈ pre, l.cb ≠ c) (hpost : ∀ l ∈ post, l.cb ≠ c)
    (hexc : CbFreeExcept s n c) :
    countCalls (invokeAll f env n p (pre ++ ⟨true, c⟩ :: post) s).2 c = 1 ∧
    CbFreeExcept (invokeAll f env n p (pre ++ ⟨true, c⟩ :: post) s).1 n c ∧
    CbFree (invokeAll f env n p (pre ++ ⟨true, c⟩ :: post) s).1 n c := by
  induction pre generalizing s with
  | nil =>
      simp only [List.nil_append, invokeAll]
      obtain ⟨h1, h2, -⟩ := countFree_runEffs f n c (env c p) s hf
        (fun e he => hname c p e he) (fun e he => hreg c p e he) hexc
      have hfree : CbFree ((runEffs f (env c p) s).1.offCb n c) n c :=
        cbFree_offCb_self _ n c
      have hexc' : CbFreeExcept ((runEffs f (env c p) s).1.offCb n c) n c :=
        fun m hm => cbFree_offCb _ m n c c (h2 m hm)
      obtain ⟨g1, g2, g3⟩ := countFree_invokeAll f env n p n c post _ hf
        hname hreg hpost hexc'
      refine ⟨?_, g2, g3 hfree⟩
      rw [countCalls_cons_call_self, countCalls_append, h1]
      simp only [if_true]
      rw [g1]
  | cons l pre' ih =>
      have hl : l.cb ≠ c := hpre l (by simp)
      simp only [List.cons_append, invokeAll]
      obtain ⟨h1, h2, -⟩ := countFree_runEffs f n c (env l.cb p) s hf
        (fun e he => hname l.cb p e he) (fun e he => hreg l.cb p e he) hexc
      have h2' : CbFreeExcept
          (if l.once then (runEffs f (env l.cb p) s).1.offCb n l.cb
           else (runEffs f (env l.cb p) s).1) n c := by
        by_cases ho : l.once
        · rw [if_pos ho]
          exact fun m hm => cbFree_offCb _ m n c l.cb (h2 m hm)
        · rw [if_neg ho]
          exact h2
      obtain ⟨g1, g2, g3⟩ := ih _ (fun l' hl' => hpre l' (by simp [hl'])) h2'
      refine ⟨?_, g2, g3⟩
      rw [countCalls_cons_call_ne _ _ _ _ hl, countCalls_append, h1]
      simp only [List.append_eq, Nat.zero_add]
      exact g1

/-- A top-level emit of `n` on a state already free of `c` everywhere
invokes `c` zero times and keeps the state free of `c`, even when listeners
reentrantly emit other events. -/
theorem count_zero_emit (env : Env N P) (fuel : Nat) (s : EventEmitter N P)
    (n : N) (p : P) (c : Cb)
    (hname : NoEmitOf env n) (hreg : NoRegOf env c)
    (hexc : CbFreeExcept s n c) (hn : CbFree s n c) :
    countCalls (emit env (fuel + 1) s n p).2 c = 0 ∧
    CbFreeExcept (emit env (fuel + 1) s n p).1 n c ∧
    CbFree (emit env (fuel + 1) s n p).1 n c := by
  obtain ⟨h1, h2, h3⟩ := countFree_invokeAll (emit env fuel) env n p n c
    (s.listeners n) s (emitFnSafe_emit env n c hname hreg fuel) hname hreg
    hn hexc
  refine ⟨?_, fun m' hm' => h2 m' hm', h3 hn⟩
  simp only [emit, countCalls_append, h1, writeAll, writeGlobal,
    countCalls_map_write, countCalls_map_gwrite]

theorem count_zero_emitSeq (env : Env N P) (fuel : Nat) (n : N) (c : Cb)
    (ps : List P) (s : EventEmitter N P)
    (hname : NoEmitOf env n) (hreg : NoRegOf env c)
    (hexc : CbFreeExcept s n c) (hn : CbFree s n c) :
    countCalls (emitSeq env (fuel + 1) (ps.map fun q => (n, q)) s).2 c = 0 ∧
    CbFreeExcept (emitSeq env (fuel + 1) (ps.map fun q => (n, q)) s).1 n c ∧
    CbFree (emitSeq env (fuel + 1) (ps.map fun q => (n, q)) s).1 n c := by
  induction ps generalizing s with
  | nil => exact ⟨rfl, hexc, hn⟩
  | cons q ps ih =>
      obtain ⟨h1, h2, h3⟩ := count_zero_emit env fuel s n q c hname hreg
        hexc hn
      obtain ⟨g1, g2, g3⟩ := ih _ h2 h3
      refine ⟨?_, g2, g3⟩
      simp only [List.map_cons, emitSeq, countCalls_append, h1, g1]

theorem filter_singleton_split {α : Type} (pq : α → Bool) (l : List α)
    (a : α) (h : l.filter pq = [a]) :
    ∃ l1 l2, l = l1 ++ a :: l2 ∧ (∀ x ∈ l1, pq x = false) ∧
      (∀ x ∈ l2, pq x = false) := by
  induction l with
  | nil => simp at h
  | cons x xs ih =>
      rw [List.filter_cons] at h
      by_cases hx : pq x = true
      · rw [if_pos hx] at h
        rw [List.cons.injEq] at h
        refine ⟨[], xs, by rw [h.1]; rfl, by simp, ?_⟩
        intro y hy
        have := List.filter_eq_nil_iff.mp h.2 y hy
        simpa using this
      · rw [if_neg hx] at h
        obtain ⟨l1, l2, heq, h1, h2⟩ := ih h
        refine ⟨x :: l1, l2, by rw [heq]; rfl, ?_, h2⟩
        intro y hy
        rcases List.mem_cons.mp hy with rfl | hy'
        · simpa using hx
        · exact h1 y hy'

theorem emit_fst_listeners (env : Env N P) (fuel : Nat)
    (s : EventEmitter N P) (n : N) (p : P) :
    (emit env (fuel + 1) s n p).1.listeners =
      (invokeAll (emit env fuel) env n p (s.listeners n) s).1.listeners := rfl

/-- Claim C2 (amended): provided the once entry is the only entry in any
event's listener list whose callback value is `c`, no listener callback
invoked during the calls reentrantly emits `name` itself (reentrant emits of
other event names are allowed and harmless), and no callback's side effects
register that callback value again, then across any nonempty sequence of
awaited `emit(name, ·)` calls the callback `c` is invoked exactly once in
total, and afterwards no entry with callback `c` remains anywhere in the
emitter — the removal after its single invocation removes every entry of
the name whose callback value is identical, via `off(name, cb)` at
mod.ts:298. -/
theorem once_fires_exactly_once (env : Env N P) (fuel : Nat)
    (s : EventEmitter N P) (n : N) (c : Cb) (p : P) (ps : List P)
    (hname : NoEmitOf env n) (hreg : NoRegOf env c)
    (huniq : (s.listeners n).filter (fun l => l.cb == c) = [⟨true, c⟩])
    (hexc : CbFreeExcept s n c) :
    countCalls (emitSeq env (fuel + 1) ((p :: ps).map fun q => (n, q)) s).2 c
      = 1 ∧
    CbFree (emitSeq env (fuel + 1) ((p :: ps).map fun q => (n, q)) s).1 n c ∧
    CbFreeExcept (emitSeq env (fuel + 1) ((p :: ps).map fun q => (n, q)) s).1
      n c := by
  obtain ⟨pre, post, hsplit, hpre, hpost⟩ :=
    filter_singleton_split _ _ _ huniq
  have hpre' : ∀ l ∈ pre, l.cb ≠ c := fun l hl => by simpa using hpre l hl
  have hpost' : ∀ l ∈ post, l.cb ≠ c := fun l hl => by simpa using hpost l hl
  have hsafe := emitFnSafe_emit env n c hname hreg fuel
  obtain ⟨h1, h2, h3⟩ := count_one_invokeAll (emit env fuel) env n p c
    pre post s hsafe hname hreg hpre' hpost' hexc
  have hfirst1 : countCalls (emit env (fuel + 1) s n p).2 c = 1 := by
    simp only [emit, hsplit, countCalls_append, writeAll, writeGlobal,
      countCalls_map_write, countCalls_map_gwrite, h1]
  have hfirst2 : CbFreeExcept (emit env (fuel + 1) s n p).1 n c := by
    intro m hm l hl
    rw [emit_fst_listeners, hsplit] at hl
    exact h2 m hm l hl
  have hfirst3 : CbFree (emit env (fuel + 1) s n p).1 n c := by
    intro l hl
    rw [emit_fst_listeners, hsplit] at hl
    exact h3 l hl
  obtain ⟨g1, g2, g3⟩ := count_zero_emitSeq env fuel n c ps
    (emit env (fuel + 1) s n p).1 hname hreg hfirst2 hfirst3
  simp only [List.map_cons, emitSeq, countCalls_append]
  exact ⟨by rw [hfirst1, g1], g3, g2⟩

/-- An environment where the persistent listener `8` reentrantly emits event
`1` while being invoked (allowed by the amended C2, which only forbids
reentrant emits of the observed event `0`), and every other callback is
pure. -/
def crossEnv : Env Nat Nat :=
  fun c q => if c = 8 then [Eff.emitE 1 q] else []

/-- An emitter with the once listener `7` and the reentrantly-emitting
listener `8` on event `0`, and the listener `9` on event `1`. -/
def crossDemo : EventEmitter Nat Nat :=
  let s0 := mkEmitter Nat Nat 10
  let s1 := orSelf (s0.once 0 7) s0
  let s2 := orSelf (s1.onCb 0 8) s1
  orSelf (s2.onCb 1 9) s2

/-- Witness for the amended C2 exercising the allowed reentrancy: while the
once listener `7` of event `0` is delivered, listener `8` reentrantly emits
event `1` (invoking listener `9`), and still `7` fires exactly once across
two emits of event `0` and is removed. -/
theorem once_fires_exactly_once_witness :
    NoEmitOf crossEnv 0 ∧
    NoRegOf crossEnv 7 ∧
    (crossDemo.listeners 0).filter (fun l => l.cb == 7) = [⟨true, 7⟩] ∧
    countCalls (emitSeq crossEnv (2 + 1) ([5, 6].map fun q => ((0 : Nat), q))
      crossDemo).2 7 = 1 ∧
    CbFree (emitSeq crossEnv (2 + 1) ([5, 6].map fun q => ((0 : Nat), q))
      crossDemo).1 0 7 := by
  have hname : NoEmitOf crossEnv 0 := by
    intro c q e he
    unfold crossEnv at he
    by_cases hc : c = 8
    · rw [if_pos hc] at he
      simp only [List.mem_cons, List.not_mem_nil, or_false] at he
      rw [he]
      rfl
    · rw [if_neg hc] at he
      simp at he
  have hreg : NoRegOf crossEnv 7 := by
    intro c q e he
    unfold crossEnv at he
    by_cases hc : c = 8
    · rw [if_pos hc] at he
      simp only [List.mem_cons, List.not_mem_nil, or_false] at he
      rw [he]
      rfl
    · rw [if_neg hc] at he
      simp at he
  have hexc : CbFreeExcept crossDemo 0 7 := by
    intro m hm l hl
    by_cases h1 : m = 1
    · subst h1
      rw [show crossDemo.listeners 1 = [⟨false, 9⟩] from by decide] at hl
      simp only [List.mem_singleton] at hl
      rw [hl]
      decide
    · have hnil : crossDemo.listeners m = [] := by
        simp [crossDemo, orSelf, mkEmitter, EventEmitter.once,
          EventEmitter.onCb, hm, h1]
      rw [hnil] at hl
      simp at hl
  have h := once_fires_exactly_once crossEnv 2 crossDemo 0 7 5 [6]
    hname hreg (by decide) hexc
  exact ⟨hname, hreg, by decide, h.1, h.2.1⟩

/-- An emitter whose event `0` carries the once listener `7` followed by a
persistent registration of the same callback value `7`. -/
def dupRegistered : EventEmitter Nat Nat :=
  match (mkEmitter Nat Nat 10).once 0 7 with
  | .ok s => orSelf (s.onCb 0 7) s
  | .error _ => mkEmitter Nat Nat 10

/-- Counterexample to claim C6 as stated: with the once entry and a
persistent entry of the identical callback `7` both registered on event `0`,
one emit removes BOTH entries — `emit` delegates the once removal to
`off(eventName, cb)` (mod.ts:298), which filters by callback value
(mod.ts:252-254) — instead of removing only the specific invoked entry and
leaving the persistent one. -/
theorem once_removal_drops_duplicate_entry :
    dupRegistered.listeners 0 = [⟨true, 7⟩, ⟨false, 7⟩] ∧
    (emit envPure 1 dupRegistered 0 0).1.listeners 0 = [] ∧
    (emit envPure 1 dupRegistered 0 0).1.listeners 0 ≠ [⟨false, 7⟩] := by
  decide

/-- Claim C6 (amended): when `emit` removes an invoked once listener, it
removes from `listeners[name]` every entry whose callback value is identical
to the invoked listener's callback — a value match through
`off(name, cb)`, not an identity match against the specific entry: after one
emit (with callbacks that do not touch the emitter), the surviving entries
are exactly those whose callback value matches no once entry of the
snapshot. -/
theorem emit_once_removal_by_value (env : Env N P) (fuel : Nat)
    (s : EventEmitter N P) (n : N) (p : P) (henv : EnvInert env) :
    (emit env (fuel + 1) s n p).1.listeners n =
      (s.listeners n).filter
        (fun l => !((s.listeners n).any fun l2 => l2.once && l2.cb == l.cb)) :=
  emit_listeners_inert env fuel s n p henv

/-- Witness for the amended C6 at the duplicate-registration emitter: both
entries with callback `7` are removed by one emit because a once entry with
that value was invoked. -/
theorem emit_once_removal_by_value_witness :
    EnvInert (envPure : Env Nat Nat) ∧
    (emit envPure 1 dupRegistered 0 0).1.listeners 0 =
      (dupRegistered.listeners 0).filter
        (fun l => !((dupRegistered.listeners 0).any
          fun l2 => l2.once && l2.cb == l.cb)) :=
  ⟨fun _ _ => rfl,
   emit_once_removal_by_value envPure 0 dupRegistered 0 0 (fun _ _ => rfl)⟩

/-- Claim C4: after `off()` with no arguments, no listener registered before
the call is invoked by any later emit (the listener registries are empty and
a later emit on the torn-down emitter produces no delivery action at all),
and every pull consumer created before the call observes end of sequence:
each moves, with its already-written values intact, into the closed pools,
which no later emit sequence touches. -/
theorem off_bulk_teardown (s : EventEmitter N P) (env : Env N P) (fuel : Nat)
    (calls : List (N × P)) :
    (∀ m, (s.offAll).listeners m = []) ∧
    (∀ m, ∀ w ∈ s.onWriters m, w ∈ (s.offAll).closedOn m) ∧
    (∀ w ∈ s.globalWriters, w ∈ (s.offAll).closedGlobal) ∧
    (emitSeq env fuel calls s.offAll).2 = [] ∧
    (emitSeq env fuel calls s.offAll).1.closedOn = (s.offAll).closedOn ∧
    (emitSeq env fuel calls s.offAll).1.closedGlobal =
      (s.offAll).closedGlobal := by
  have h1 : ∀ m, (s.offAll).listeners m = [] := fun m => rfl
  have h2 : ∀ m, (s.offAll).onWriters m = [] := fun m => rfl
  have h3 : (s.offAll).globalWriters = [] := rfl
  obtain ⟨q1, q2, q3⟩ := emitSeq_quiet env fuel calls s.offAll h1 h2 h3
  refine ⟨h1, fun m w hw => ?_, fun w hw => ?_, q1, q2, q3⟩
  · simp only [EventEmitter.offAll, List.mem_append]
    exact Or.inr hw
  · simp only [EventEmitter.offAll, List.mem_append]
    exact Or.inr hw

/-- Witness for C4 at the demonstration emitter: its per-event consumer and
its global consumer land in the closed pools, and a later emit of event `0`
delivers nothing. -/
theorem off_bulk_teardown_witness :
    (⟨0, []⟩ : Consumer Nat) ∈ (demoEmitter.offAll).closedOn 0 ∧
    (⟨1, []⟩ : Consumer (Nat × Nat)) ∈ (demoEmitter.offAll).closedGlobal ∧
    (emitSeq envPure 2 [(0, 3)] demoEmitter.offAll).2 = [] ∧
    (emitSeq envPure 2 [(0, 3)] demoEmitter.offAll).1.closedOn =
      (demoEmitter.offAll).closedOn :=
  ⟨(off_bulk_teardown demoEmitter envPure 2 [(0, 3)]).2.1 0 ⟨0, []⟩ (by decide),
   (off_bulk_teardown demoEmitter envPure 2 [(0, 3)]).2.2.1 ⟨1, []⟩ (by decide),
   (off_bulk_teardown demoEmitter envPure 2 [(0, 3)]).2.2.2.1,
   (off_bulk_teardown demoEmitter envPure 2 [(0, 3)]).2.2.2.2.1⟩

/-- The result of calling `on` with a single callback argument, as the
source actually executes it: the callback value becomes `eventName` (the
`listener` parameter is `undefined`), so the else branch of mod.ts:182-196
runs and a per-event pull consumer keyed by the callback value (modelled as
the name `99`) is created.  No listener of any kind is registered. -/
def onSingleArg : EventEmitter Nat Nat × Nat :=
  match (mkEmitter Nat Nat 10).onStream 99 with
  | .ok r => r
  | .error _ => (mkEmitter Nat Nat 10, 0)

/-- Claim C5, evaluated at the failing input (`on(cb)` then
`emit(name, payload)` with `name = 0`): the call registers no listener
(both the callback-as-key slot `99` and the emitted name `0` hold no
listener entry), creates a stray per-event consumer under the callback used
as a key, and the subsequent emit invokes no callback and performs no write
— the global listener invocation promised by the claim and by the `on
global` test of test.ts never happens. -/
theorem on_single_argument_behavior :
    onSingleArg.1.listeners 99 = [] ∧
    onSingleArg.1.listeners 0 = [] ∧
    onSingleArg.1.onWriters 99 = [⟨0, []⟩] ∧
    onSingleArg.1.globalWriters = [] ∧
    (emit envPure 1 onSingleArg.1 0 0).2 = [] ∧
    (emit envPure 1 onSingleArg.1 0 0).1.onWriters 99 = [⟨0, []⟩] := by
  refine ⟨by decide, by decide, by decide, rfl, by decide, by decide⟩

theorem once_entry_resolution (env : Env N P) (fuel : Nat)
    (s' : EventEmitter N P) (n : N) (c : Cb) (p : P) (ps : List P)
    (henv : EnvInert env)
    (hsnap : ∃ pre, s'.listeners n = pre ++ [⟨true, c⟩] ∧ ∀ l ∈ pre, l.cb ≠ c) :
    callPayloads
      (emitSeq env (fuel + 1) ((p :: ps).map fun q => (n, q)) s').2 c = [p] ∧
    CbFree (emitSeq env (fuel + 1) ((p :: ps).map fun q => (n, q)) s').1 n c := by
  obtain ⟨pre, hsn, hpre⟩ := hsnap
  have henv' := envInert_nonReentrant env henv
  have hregc := envInert_noRegOf env henv c
  simp only [List.map_cons, emitSeq, callPayloads_append]
  have hmem : ∃ l, l ∈ s'.listeners n ∧ l.once = true ∧ l.cb = c :=
    ⟨⟨true, c⟩, by
      rw [hsn]
      exact List.mem_append_right _ (List.mem_singleton_self _), rfl, rfl⟩
  have hfree1 : CbFree (emit env (fuel + 1) s' n p).1 n c := by
    simp only [emit]
    exact cbFree_invokeAll_once_mem (emit env fuel) env n p _ s' c henv' hregc
      hmem
  have hrest := countCalls_emitSeq_of_cbFree env n c ps fuel _ henv' hregc
    hfree1
  have hfil : (s'.listeners n).filter (fun l => l.cb == c) = [⟨true, c⟩] := by
    rw [hsn, List.filter_append]
    have hnil : pre.filter (fun l => l.cb == c) = [] := by
      rw [List.filter_eq_nil_iff]
      intro l hl
      simpa using hpre l hl
    rw [hnil]
    simp
  refine ⟨?_, hrest.2⟩
  rw [callPayloads_emit env fuel s' n p c henv', hfil,
    callPayloads_eq_nil_of_countCalls _ _ hrest.1]
  simp

/-- Claim C9: `once(name)` without a callback goes through the same nonzero
per-event listener limit check as callback registrations, raising
`LimitExceeded` when the count already equals the limit; on success it
registers a fresh once resolver (mod.ts:230-235) and the returned promise
resolves with exactly the payload of the next emission of `name`: across the
whole subsequent emit sequence for `name` the resolver is invoked exactly
once — so the promise resolves at most once — with that first payload as
the payload tuple, and its entry is removed afterwards.  Freshness of the
resolver function object is the hypothesis that no existing entry carries
the identity `s.nextId`; stated for callbacks that do not touch the
emitter. -/
theorem once_promise_resolution (s : EventEmitter N P) (n : N) (env : Env N P)
    (fuel : Nat) (p : P) (ps : List P)
    (henv : EnvInert env) (hfresh : CbFree s n s.nextId) :
    (s.limit ≠ 0 → (s.listeners n).length = s.limit →
      s.oncePromise n = .error (.limitExceeded s.limit)) ∧
    (∀ s' c, s.oncePromise n = .ok (s', c) →
      callPayloads
        (emitSeq env (fuel + 1) ((p :: ps).map fun q => (n, q)) s').2 c = [p] ∧
      CbFree
        (emitSeq env (fuel + 1) ((p :: ps).map fun q => (n, q)) s').1 n c) := by
  constructor
  · intro hL h
    simp [EventEmitter.oncePromise, h, hL]
  · intro s' c hok
    have hcond : ¬(s.limit ≠ 0 ∧ (s.listeners n).length ≥ s.limit) := by
      intro hcontra
      rw [EventEmitter.oncePromise, if_pos hcontra] at hok
      exact absurd hok (by simp)
    rw [EventEmitter.oncePromise, if_neg hcond] at hok
    rw [Except.ok.injEq, Prod.mk.injEq] at hok
    obtain ⟨hs', hc⟩ := hok
    subst hc
    subst hs'
    refine once_entry_resolution env fuel _ n s.nextId p ps henv
      ⟨s.listeners n, ?_, fun l hl => hfresh l hl⟩
    dsimp only
    rw [if_pos rfl]

/-- The emitter and resolver identity produced by `once(0)` on a fresh
emitter. -/
def oncePromiseDemo : EventEmitter Nat Nat × Cb :=
  match (mkEmitter Nat Nat 10).oncePromise 0 with
  | .ok r => r
  | .error _ => (mkEmitter Nat Nat 10, 0)

/-- Witness for C9: after `once(0)` on a fresh emitter, emitting `(0, 42)`
resolves the promise with payload `42`, exactly once. -/
theorem once_promise_resolution_witness :
    EnvInert (envPure : Env Nat Nat) ∧
    CbFree (mkEmitter Nat Nat 10) 0 (mkEmitter Nat Nat 10).nextId ∧
    (callPayloads
      (emitSeq envPure 1 ([42].map fun q => ((0 : Nat), q))
        oncePromiseDemo.1).2 oncePromiseDemo.2 = [42] ∧
    CbFree
      (emitSeq envPure 1 ([42].map fun q => ((0 : Nat), q))
        oncePromiseDemo.1).1 0 oncePromiseDemo.2) :=
  ⟨fun _ _ => rfl, fun l hl => by simp [mkEmitter] at hl,
   (once_promise_resolution (mkEmitter Nat Nat 10) 0 envPure 0 42 []
      (fun _ _ => rfl) (fun l hl => by simp [mkEmitter] at hl)).2
      oncePromiseDemo.1 oncePromiseDemo.2 rfl⟩
